import Mathlib

/-!
Verification of the currency-api engine: a shallow embedding of the
converter (`ExchangeQueryHandler.Handle`), the currency registry
(`entities.CryptoCurrencies` / `GetCurrency`), the cross-rate calculator
(`GetRatesQueryHandler.Handle` / `calculateRate`), the resilient rate
provider's response mapping (`RatesRepositoryImpl.fetchRatesFromAPI`), and
the circuit breaker that guards it.

Go's `shopspring/decimal` values are exact rationals whose denominator is a
power of ten; we embed them as `ℚ`.  `Decimal.Mul` is exact; `Decimal.Div`
rounds the true quotient half away from zero at `DivisionPrecision = 16`
decimal places; `Decimal.Round(p)` rounds half away from zero at `p`
places.  `decimal.NewFromFloat` yields the shortest decimal that round-trips
through the float, so the registry constants are exactly their source
literals.
-/

namespace CurrencyApi

/-! ## Fixed-point arithmetic (shopspring/decimal) -/

/-- `Decimal.Round`: round half away from zero at `p` decimal places. -/
def roundHalfAway (x : ℚ) (p : ℤ) : ℚ :=
  let s : ℚ := 10 ^ p
  if 0 ≤ x then ((⌊x * s + 1/2⌋ : ℤ) : ℚ) / s
  else -(((⌊-x * s + 1/2⌋ : ℤ) : ℚ) / s)

/-- `Decimal.DivRound`: quotient rounded half away from zero at `p` places. -/
def divRound (a b : ℚ) (p : ℤ) : ℚ := roundHalfAway (a / b) p

/-- `decimal.DivisionPrecision`, the default precision used by `Decimal.Div`. -/
def divisionPrecision : ℤ := 16

/-! ## Go string helpers (`strings.ToUpper`, `strings.TrimSpace`) -/

/-- `strings.ToUpper` on one character (simple case mapping; ASCII range,
which covers every character whose upper case differs on the inputs the
registry can match). -/
def upperChar (c : Char) : Char :=
  if 97 ≤ c.toNat ∧ c.toNat ≤ 122 then Char.ofNat (c.toNat - 32) else c

/-- `unicode.IsSpace`: Go's white-space set. -/
def isSpaceGo (c : Char) : Bool :=
  c.toNat = 32 || c.toNat = 9 || c.toNat = 10 || c.toNat = 11 ||
  c.toNat = 12 || c.toNat = 13 || c.toNat = 0x85 || c.toNat = 0xA0 ||
  c.toNat = 0x1680 || (0x2000 ≤ c.toNat && c.toNat ≤ 0x200A) ||
  c.toNat = 0x2028 || c.toNat = 0x2029 || c.toNat = 0x202F ||
  c.toNat = 0x205F || c.toNat = 0x3000

/-- `strings.TrimSpace` on the character list. -/
def trimList (l : List Char) : List Char :=
  ((l.dropWhile isSpaceGo).reverse.dropWhile isSpaceGo).reverse

/-- `strings.ToUpper`. -/
def toUpperGo (s : String) : String := ⟨s.data.map upperChar⟩

/-- `strings.ToUpper(strings.TrimSpace(s))`, the normalization the query
handlers apply to currency codes. -/
def normalizeCode (s : String) : String := ⟨(trimList s.data).map upperChar⟩

/-! ## Currency registry (`entities`) -/

/-- `entities.Currency`. -/
structure Currency where
  code : String
  decimalPlaces : ℤ
  rateToUSD : ℚ
deriving DecidableEq

/-- `entities.CryptoCurrencies`, keyed lookup of the fixed registry map. -/
def cryptoCurrencies (code : String) : Option Currency :=
  if code = "BEER" then some ⟨"BEER", 18, 2461/100000000⟩
  else if code = "FLOKI" then some ⟨"FLOKI", 18, 1428/10000000⟩
  else if code = "GATE" then some ⟨"GATE", 18, 687/100⟩
  else if code = "USDT" then some ⟨"USDT", 6, 999/1000⟩
  else if code = "WBTC" then some ⟨"WBTC", 8, 570372200/10000⟩
  else none

/-- Errors returned by the engine, embedded as data carrying exactly the
information the corresponding `fmt.Errorf` message interpolates. -/
inductive GoErr where
  | paramsRequired
  | invalidAmount
  | amountMustBePositive
  | unsupportedCurrency (code : String)
  | currencyNotSupported (code : String)
  | atLeastTwoCurrencies
  | failedToGetRates (e : GoErr)
  | currencyNotAvailable (code : String)
  | rateNotAvailable (code : String)
  | invalidRate (fromC : String) (fromRate : ℚ) (toC : String) (toRate : ℚ)
  | failedToCalculate (fromC toC : String) (e : GoErr)
  | unsupportedByProvider (code : String)
  | serviceProtectionActive
  | tooManyRequests
  | failedToFetchLive (e : GoErr)
  | fetchFailed
deriving DecidableEq

/-- `entities.GetCurrency`. -/
def GetCurrency (code : String) : Except GoErr Currency :=
  match cryptoCurrencies code with
  | some c => .ok c
  | none => .error (.currencyNotSupported code)

/-- `Currency.RoundToDecimalPlaces`. -/
def RoundToDecimalPlaces (c : Currency) (amount : ℚ) : ℚ :=
  roundHalfAway amount c.decimalPlaces

/-! ## `decimal.NewFromString` -/

/-- One decimal digit. -/
def isDigit (c : Char) : Bool := 48 ≤ c.toNat && c.toNat ≤ 57

/-- Numeric value of a digit string. -/
def digitsVal (ds : List Char) : ℕ :=
  ds.foldl (fun a d => 10 * a + (d.toNat - 48)) 0

/-- `strconv.ParseInt` / `big.Int.SetString` (base 10): an optional sign
followed by a non-empty run of digits. -/
def parseSignDigits (l : List Char) : Option ℤ :=
  match l with
  | [] => none
  | c :: rest =>
    let p : ℤ × List Char :=
      if c = '+' then (1, rest) else if c = '-' then (-1, rest) else (1, l)
    if p.2 ≠ [] ∧ p.2.all isDigit then some (p.1 * (digitsVal p.2 : ℤ))
    else none

/-- `strconv.ParseInt(s, 10, 32)`: as `parseSignDigits`, with the 32-bit
range check. -/
def parseInt32 (l : List Char) : Option ℤ :=
  match parseSignDigits l with
  | some v => if -(2 ^ 31) ≤ v ∧ v ≤ 2 ^ 31 - 1 then some v else none
  | none => none

/-- Exponent marker. -/
def isExpChar (c : Char) : Bool := c = 'e' || c = 'E'

/-- `decimal.NewFromString`, digit part: optional scientific-notation
exponent after the first `e`/`E`, at most one `.` in the mantissa, the
mantissa's digits parsed as a signed integer; the result is the coefficient
together with the implied power-of-ten exponent of the `Decimal`. -/
def parseDecParts (s : String) : Option (ℤ × ℤ) :=
  let l := s.data
  let mant := l.takeWhile (fun c => !(isExpChar c))
  let rest := l.dropWhile (fun c => !(isExpChar c))
  let expPart : Option ℤ :=
    match rest with
    | [] => some 0
    | _ :: e => parseInt32 e
  match expPart with
  | none => none
  | some exp0 =>
    if 2 ≤ mant.count '.' then none
    else
      let ip := mant.takeWhile (fun c => c ≠ '.')
      let rest2 := mant.dropWhile (fun c => c ≠ '.')
      let fp := match rest2 with | [] => ([] : List Char) | _ :: t => t
      match parseSignDigits (ip ++ fp) with
      | none => none
      | some m => some (m, exp0 - fp.length)

/-- `decimal.NewFromString` as the exact rational value of the parsed
`Decimal`. -/
def newFromString (s : String) : Option ℚ :=
  (parseDecParts s).map (fun p => (p.1 : ℚ) * 10 ^ p.2)

/-! ## Converter (`ExchangeQueryHandler.Handle`) -/

/-- `queries.ExchangeQuery`. -/
structure ExchangeQuery where
  From : String
  To : String
  Amount : String

/-- `entities.ExchangeResult` (amount as its exact rational value). -/
structure ExchangeResult where
  From : String
  To : String
  Amount : ℚ
deriving DecidableEq

/-- `ExchangeQueryHandler.Handle`. -/
def handleExchange (q : ExchangeQuery) : Except GoErr ExchangeResult :=
  let fromC := normalizeCode q.From
  let toC := normalizeCode q.To
  if fromC = "" ∨ toC = "" ∨ q.Amount = "" then .error .paramsRequired
  else
    match newFromString q.Amount with
    | none => .error .invalidAmount
    | some amount =>
      if amount ≤ 0 then .error .amountMustBePositive
      else
        match GetCurrency fromC with
        | .error _ => .error (.unsupportedCurrency fromC)
        | .ok fromCurrency =>
          match GetCurrency toC with
          | .error _ => .error (.unsupportedCurrency toC)
          | .ok toCurrency =>
            let usdAmount := amount * fromCurrency.rateToUSD
            let resultAmount := divRound usdAmount toCurrency.rateToUSD divisionPrecision
            .ok ⟨fromC, toC, RoundToDecimalPlaces toCurrency resultAmount⟩

/-! ## Cross-rate calculator (`GetRatesQueryHandler`) -/

/-- A Go `map[string]float64`; values are the exact rationals the floats
denote once passed through `decimal.NewFromFloat` (shortest round-tripping
decimal). -/
def RatesMap : Type := String → Option ℚ

/-- `entities.ExchangeRate`. -/
structure ExchangeRate where
  From : String
  To : String
  Rate : ℚ
deriving DecidableEq

/-- `GetRatesQueryHandler.calculateRate`. -/
def calculateRate (rates : RatesMap) (fromC toC : String) : Except GoErr ℚ :=
  match rates fromC with
  | none => .error (.rateNotAvailable fromC)
  | some fromRate =>
    match rates toC with
    | none => .error (.rateNotAvailable toC)
    | some toRate =>
      if fromRate = 0 ∨ toRate = 0 then
        .error (.invalidRate fromC fromRate toC toRate)
      else
        .ok (divRound toRate fromRate divisionPrecision)

/-- Inner loop of `GetRatesQueryHandler.Handle`: the row of rates for one
`from` against the list of `to` candidates, skipping `from == to`. -/
def rowRates (rates : RatesMap) (fromC : String) : List String → Except GoErr (List ExchangeRate)
  | [] => .ok []
  | toC :: rest =>
    if fromC = toC then rowRates rates fromC rest
    else
      match calculateRate rates fromC toC with
      | .error e => .error (.failedToCalculate fromC toC e)
      | .ok r =>
        match rowRates rates fromC rest with
        | .error e => .error e
        | .ok tail => .ok (⟨fromC, toC, r⟩ :: tail)

/-- Outer double loop of `GetRatesQueryHandler.Handle`. -/
def allRates (rates : RatesMap) (cs : List String) : List String → Except GoErr (List ExchangeRate)
  | [] => .ok []
  | fromC :: rest =>
    match rowRates rates fromC cs with
    | .error e => .error e
    | .ok row =>
      match allRates rates cs rest with
      | .error e => .error e
      | .ok more => .ok (row ++ more)

/-- `GetRatesQueryHandler.Handle`, parameterized by the injected
`RatesRepository.GetRates` (`repo` maps the normalized currency list to a
rates map and a source-description string, or an error). -/
def handleGetRates (repo : List String → Except GoErr (RatesMap × String))
    (qs : List String) : Except GoErr (List ExchangeRate × String) :=
  if qs.length < 2 then .error .atLeastTwoCurrencies
  else
    let cs := qs.map normalizeCode
    match repo cs with
    | .error e => .error (.failedToGetRates e)
    | .ok (rates, info) =>
      match cs.find? (fun c => (rates c).isNone) with
      | some c => .error (.currencyNotAvailable c)
      | none =>
        match allRates rates cs cs with
        | .error e => .error e
        | .ok result => .ok (result, info)

/-! ## Resilient provider response mapping
(`RatesRepositoryImpl.fetchRatesFromAPI`) -/

/-- Second loop of `fetchRatesFromAPI`: every requested non-`USD` currency
must appear in the decoded upstream `rates` map, else the whole call fails
naming it; present ones are copied into the result. -/
def collectRates (upstream : RatesMap) : List String → Except GoErr (List (String × ℚ))
  | [] => .ok []
  | c :: rest =>
    if c = "USD" then collectRates upstream rest
    else
      match upstream c with
      | some r =>
        match collectRates upstream rest with
        | .error e => .error e
        | .ok tail => .ok ((c, r) :: tail)
      | none => .error (.unsupportedByProvider c)

/-- `RatesRepositoryImpl.fetchRatesFromAPI`, response-mapping stage: the
upstream body omits the base currency `USD`, whose rate `1.0` is
synthesized when requested; the result is the final association of
currency to rate. -/
def fetchRatesFromAPI (currencies : List String) (upstream : RatesMap) :
    Except GoErr (List (String × ℚ)) :=
  match collectRates upstream currencies with
  | .error e => .error e
  | .ok rest =>
    .ok ((if currencies.contains "USD" then [("USD", (1 : ℚ))] else []) ++ rest)

/-! ## Circuit breaker (`RatesRepositoryImpl` + its breaker) -/

/-- `ReadyToTrip` threshold from the `gobreaker.Settings` literal in
`NewRatesRepositoryImpl`: trip on 3 consecutive failures. -/
def failureThreshold : ℕ := 3

/-- `Interval` (seconds) from the settings literal: the rolling window after
which the Closed-state counters are reset. -/
def countingInterval : ℕ := 60

/-- `Timeout` (seconds) from the settings literal: the Open-state
cool-down. -/
def coolDown : ℕ := 30

/-- Breaker states of spec §4.4. -/
inductive CBState where
  | closed
  | opened
  | halfOpen
deriving DecidableEq

/-- Modelled from the spec: the circuit breaker's mutable state (§3, §4.4).
The breaker implementation itself (the `gobreaker` dependency) is not part
of the sources; only its configuration in `NewRatesRepositoryImpl` is. -/
structure Breaker where
  state : CBState
  consecutiveFailures : ℕ
  intervalStart : ℕ
  openedAt : ℕ
deriving DecidableEq

/-- What a breaker-mediated call did. -/
inductive CallResult where
  /-- The breaker was Open inside the cool-down: the call failed immediately
  and no network request was performed. -/
  | rejectedOpen
  /-- The call was let through to the network; `ok` records whether the
  network call succeeded. -/
  | attempted (ok : Bool)
deriving DecidableEq

/-- Modelled from the spec: one sequential call through the breaker state
machine of §4.4 (the `gobreaker` implementation is absent from the
sources).  `now` is the call's time in seconds, `ok` the outcome the
network would produce if the call is admitted.  Closed: the counting
interval resets the failure counter on elapse; a success resets it; a
failure increments it and trips the breaker at `failureThreshold`.  Open:
inside the cool-down the call is rejected without network I/O; after the
cool-down the next call is the Half-Open trial, committing the breaker to
Closed on success and back to Open on failure. -/
def breakerCall (b : Breaker) (now : ℕ) (ok : Bool) : Breaker × CallResult :=
  match b.state with
  | .closed =>
    let b1 :=
      if b.intervalStart + countingInterval ≤ now then
        { b with consecutiveFailures := 0, intervalStart := now }
      else b
    if ok then
      ({ b1 with consecutiveFailures := 0 }, .attempted true)
    else
      let n := b1.consecutiveFailures + 1
      if failureThreshold ≤ n then
        ({ b1 with state := .opened, consecutiveFailures := n, openedAt := now },
          .attempted false)
      else
        ({ b1 with consecutiveFailures := n }, .attempted false)
  | .opened =>
    if now < b.openedAt + coolDown then
      (b, .rejectedOpen)
    else
      if ok then
        ({ state := .closed, consecutiveFailures := 0, intervalStart := now,
           openedAt := b.openedAt }, .attempted true)
      else
        ({ b with state := .opened, openedAt := now }, .attempted false)
  | .halfOpen =>
    if ok then
      ({ state := .closed, consecutiveFailures := 0, intervalStart := now,
         openedAt := b.openedAt }, .attempted true)
    else
      ({ b with state := .opened, openedAt := now }, .attempted false)

/-- `RatesRepositoryImpl.GetRates`, credentialed path: the fetch outcome is
run through the breaker; a rejected call is mapped to the distinct
"service protection active" error (`gobreaker.ErrOpenState` branch), an
admitted failing fetch is wrapped as "failed to fetch live exchange
rates". -/
def getRatesResilient (b : Breaker) (now : ℕ) (fetch : Except GoErr RatesMap) :
    Breaker × Except GoErr RatesMap :=
  let r := breakerCall b now fetch.toBool
  match r.2 with
  | .rejectedOpen => (r.1, .error .serviceProtectionActive)
  | .attempted _ =>
    match fetch with
    | .error e => (r.1, .error (.failedToFetchLive e))
    | .ok rates => (r.1, .ok rates)

/-! ## Helper lemmas on the string primitives -/

theorem upperChar_idem (c : Char) : upperChar (upperChar c) = upperChar c := by
  unfold upperChar
  split
  case isTrue h =>
    obtain ⟨h1, h2⟩ := h
    rw [show (if 97 ≤ (Char.ofNat (c.toNat - 32)).toNat ∧ (Char.ofNat (c.toNat - 32)).toNat ≤ 122
        then Char.ofNat ((Char.ofNat (c.toNat - 32)).toNat - 32) else Char.ofNat (c.toNat - 32)) =
        Char.ofNat (c.toNat - 32) from ?_]
    generalize c.toNat = n at h1 h2 ⊢
    interval_cases n <;> decide
  case isFalse h =>
    rfl

theorem isSpaceGo_upperChar (c : Char) : isSpaceGo (upperChar c) = isSpaceGo c := by
  unfold upperChar
  split
  case isTrue h =>
    obtain ⟨h1, h2⟩ := h
    unfold isSpaceGo
    generalize c.toNat = n at h1 h2 ⊢
    interval_cases n <;> decide
  case isFalse h => rfl

theorem trimList_map_upperChar (l : List Char) :
    trimList (l.map upperChar) = (trimList l).map upperChar := by
  have hp : (isSpaceGo ∘ upperChar) = isSpaceGo := funext isSpaceGo_upperChar
  unfold trimList
  rw [List.dropWhile_map, hp, ← List.map_reverse, List.dropWhile_map, hp, ← List.map_reverse]

theorem normalizeCode_toUpperGo (s : String) :
    normalizeCode (toUpperGo s) = normalizeCode s := by
  unfold normalizeCode toUpperGo
  have : trimList (s.data.map upperChar) = (trimList s.data).map upperChar :=
    trimList_map_upperChar s.data
  have h2 : upperChar ∘ upperChar = upperChar := funext upperChar_idem
  rw [this, List.map_map, h2]

/-! ## Claims about the converter's validation and lookup -/

/-- C9: the registry lookup performed by the exchange handler (normalize the
code by trimming and upper-casing, then look it up with `GetCurrency`)
matches codes case-insensitively: for every code string `s` it returns the
same result on `s` and on the upper-cased `s`. -/
theorem registry_lookup_case_insensitive (s : String) :
    GetCurrency (normalizeCode s) = GetCurrency (normalizeCode (toUpperGo s)) := by
  rw [normalizeCode_toUpperGo]

/-- C7: the converter validates in a fixed order: empty (after trimming)
`from` or `to`, or empty `amount`, yields the parameter-required error
first; otherwise an unparsable amount yields the invalid-amount error;
otherwise a non-positive amount yields the amount-must-be-positive error;
otherwise an unknown `from` code yields `unsupported currency <from>`
before `to` is checked; otherwise an unknown `to` code yields
`unsupported currency <to>`. -/
theorem exchange_validation_order (q : ExchangeQuery) :
    ((normalizeCode q.From = "" ∨ normalizeCode q.To = "" ∨ q.Amount = "") →
      handleExchange q = .error .paramsRequired) ∧
    (normalizeCode q.From ≠ "" → normalizeCode q.To ≠ "" → q.Amount ≠ "" →
      newFromString q.Amount = none →
      handleExchange q = .error .invalidAmount) ∧
    (∀ a, normalizeCode q.From ≠ "" → normalizeCode q.To ≠ "" → q.Amount ≠ "" →
      newFromString q.Amount = some a → a ≤ 0 →
      handleExchange q = .error .amountMustBePositive) ∧
    (∀ a, normalizeCode q.From ≠ "" → normalizeCode q.To ≠ "" → q.Amount ≠ "" →
      newFromString q.Amount = some a → 0 < a →
      cryptoCurrencies (normalizeCode q.From) = none →
      handleExchange q = .error (.unsupportedCurrency (normalizeCode q.From))) ∧
    (∀ a fc, normalizeCode q.From ≠ "" → normalizeCode q.To ≠ "" → q.Amount ≠ "" →
      newFromString q.Amount = some a → 0 < a →
      cryptoCurrencies (normalizeCode q.From) = some fc →
      cryptoCurrencies (normalizeCode q.To) = none →
      handleExchange q = .error (.unsupportedCurrency (normalizeCode q.To))) := by
  refine ⟨fun h => ?_, fun h1 h2 h3 hp => ?_, fun a h1 h2 h3 hp ha => ?_,
    fun a h1 h2 h3 hp ha hf => ?_, fun a fc h1 h2 h3 hp ha hf ht => ?_⟩
  · simp only [handleExchange]
    rw [if_pos h]
  · simp only [handleExchange]
    rw [if_neg (by tauto), hp]
  · simp only [handleExchange]
    rw [if_neg (by tauto), hp]
    simp [ha]
  · simp only [handleExchange]
    rw [if_neg (by tauto), hp]
    simp [not_le.mpr ha, GetCurrency, hf]
  · simp only [handleExchange]
    rw [if_neg (by tauto), hp]
    simp [not_le.mpr ha, GetCurrency, hf, ht]

/-- Witness for C7: the parameter-required branch fires on an empty `from`. -/
theorem exchange_validation_order_witness :
    handleExchange ⟨"", "USDT", "1.0"⟩ = .error .paramsRequired :=
  (exchange_validation_order ⟨"", "USDT", "1.0"⟩).1 (by decide)

/-- The converter's successful path: a valid positive amount and two
registry codes produce the bridged amount, where the division is
`Decimal.Div` (quotient rounded at `divisionPrecision` places) and the
result is rounded to the target currency's scale. -/
theorem handleExchange_valid (q : ExchangeQuery) (a : ℚ) (fc tc : Currency)
    (h1 : normalizeCode q.From ≠ "") (h2 : normalizeCode q.To ≠ "") (h3 : q.Amount ≠ "")
    (hp : newFromString q.Amount = some a) (ha : 0 < a)
    (hf : cryptoCurrencies (normalizeCode q.From) = some fc)
    (ht : cryptoCurrencies (normalizeCode q.To) = some tc) :
    handleExchange q = .ok ⟨normalizeCode q.From, normalizeCode q.To,
      roundHalfAway (divRound (a * fc.rateToUSD) tc.rateToUSD divisionPrecision)
        tc.decimalPlaces⟩ := by
  simp only [handleExchange]
  rw [if_neg (by tauto), hp]
  simp [not_le.mpr ha, GetCurrency, hf, ht, RoundToDecimalPlaces]

/-- Every registry currency has a non-zero USD rate. -/
theorem registry_rate_ne_zero (c : String) (cur : Currency)
    (h : cryptoCurrencies c = some cur) : cur.rateToUSD ≠ 0 := by
  unfold cryptoCurrencies at h
  split_ifs at h <;> simp only [Option.some.injEq] at h <;> subst h <;> norm_num

/-- A registry hit forces a non-empty code. -/
theorem registry_code_ne_empty (c : String) (cur : Currency)
    (h : cryptoCurrencies c = some cur) : c ≠ "" := by
  intro he
  rw [he] at h
  exact Option.noConfusion ((by decide : cryptoCurrencies "" = none) ▸ h)

/-- `Decimal.Div` of an exact product by its right factor recovers the left
factor rounded at the division precision. -/
theorem divRound_mul_cancel (a r : ℚ) (p : ℤ) (hr : r ≠ 0) :
    divRound (a * r) r p = roundHalfAway a p := by
  unfold divRound
  rw [mul_div_cancel_right₀ a hr]

/-- C1 (amended): over the fixed registry, `convert` returns
`amount × rateToUSD[from] / rateToUSD[to]` where the division is performed
at 16 decimal places of precision (rounded half away from zero, the
`Decimal.Div` default) and the result is then rounded to
`decimalPlaces[to]`; in particular `convert(WBTC, USDT, "1.0")` returns
`57094.314314`, `convert(GATE, WBTC, "100.0")` returns `0.01204477`, and
`convert(USDT, USDT, "100.0")` returns `100.000000`. -/
theorem convert_formula_and_examples :
    (∀ q a fc tc, normalizeCode q.From ≠ "" → normalizeCode q.To ≠ "" →
      q.Amount ≠ "" → newFromString q.Amount = some a → 0 < a →
      cryptoCurrencies (normalizeCode q.From) = some fc →
      cryptoCurrencies (normalizeCode q.To) = some tc →
      handleExchange q = .ok ⟨normalizeCode q.From, normalizeCode q.To,
        roundHalfAway (divRound (a * fc.rateToUSD) tc.rateToUSD divisionPrecision)
          tc.decimalPlaces⟩) ∧
    handleExchange ⟨"WBTC", "USDT", "1.0"⟩ =
      .ok ⟨"WBTC", "USDT", (57094314314 : ℚ)/1000000⟩ ∧
    handleExchange ⟨"GATE", "WBTC", "100.0"⟩ =
      .ok ⟨"GATE", "WBTC", (1204477 : ℚ)/100000000⟩ ∧
    handleExchange ⟨"USDT", "USDT", "100.0"⟩ =
      .ok ⟨"USDT", "USDT", (100 : ℚ)⟩ := by
  refine ⟨fun q a fc tc h1 h2 h3 hp ha hf ht =>
    handleExchange_valid q a fc tc h1 h2 h3 hp ha hf ht, ?_, ?_, ?_⟩
  · have h : parseDecParts "1.0" = some (10, -1) := by decide
    have hW : normalizeCode "WBTC" = "WBTC" := by decide
    have hU : normalizeCode "USDT" = "USDT" := by decide
    simp [handleExchange, hW, hU, newFromString, h, GetCurrency, cryptoCurrencies]
    norm_num [divRound, roundHalfAway, divisionPrecision, RoundToDecimalPlaces]
  · have h : parseDecParts "100.0" = some (1000, -1) := by decide
    have hG : normalizeCode "GATE" = "GATE" := by decide
    have hW : normalizeCode "WBTC" = "WBTC" := by decide
    simp [handleExchange, hG, hW, newFromString, h, GetCurrency, cryptoCurrencies]
    norm_num [divRound, roundHalfAway, divisionPrecision, RoundToDecimalPlaces]
  · have h : parseDecParts "100.0" = some (1000, -1) := by decide
    have hU : normalizeCode "USDT" = "USDT" := by decide
    simp [handleExchange, hU, newFromString, h, GetCurrency, cryptoCurrencies]
    norm_num [divRound, roundHalfAway, divisionPrecision, RoundToDecimalPlaces]

/-- Witness for C1: the formula branch applied to `convert(WBTC, USDT, "1.0")`. -/
theorem convert_formula_and_examples_witness :
    handleExchange ⟨"WBTC", "USDT", "1.0"⟩ =
      .ok ⟨"WBTC", "USDT",
        roundHalfAway (divRound ((1 : ℚ) * (570372200/10000)) (999/1000) divisionPrecision) 6⟩ :=
  convert_formula_and_examples.1 ⟨"WBTC", "USDT", "1.0"⟩ 1
    ⟨"WBTC", 8, 570372200/10000⟩ ⟨"USDT", 6, 999/1000⟩
    (by decide) (by decide) (by decide)
    (by simp [newFromString, show parseDecParts "1.0" = some (10, -1) from by decide])
    (by norm_num) (by rfl) (by rfl)

/-- C1 counterexample: `convert(USDT, BEER, "1.0")` does not equal the
exact quotient `1.0 × rateToUSD[USDT] / rateToUSD[BEER]` rounded to
BEER's 18 decimal places: the code's 16-digit division precision loses the
18th-place digits first. -/
theorem convert_formula_counterexample :
    handleExchange ⟨"USDT", "BEER", "1.0"⟩ =
      .ok ⟨"USDT", "BEER", (81186509548963835839 : ℚ)/2000000000000000⟩ ∧
    (81186509548963835839 : ℚ)/2000000000000000 ≠
      roundHalfAway ((1 : ℚ) * (999/1000) / (2461/100000000)) 18 := by
  constructor
  · have h : parseDecParts "1.0" = some (10, -1) := by decide
    have hU : normalizeCode "USDT" = "USDT" := by decide
    have hB : normalizeCode "BEER" = "BEER" := by decide
    simp [handleExchange, hU, hB, newFromString, h, GetCurrency, cryptoCurrencies]
    norm_num [divRound, roundHalfAway, divisionPrecision, RoundToDecimalPlaces]
  · norm_num [roundHalfAway]

/-- C8 (amended): same-currency conversion succeeds and returns the input
amount first rounded at the 16-place division precision (the `Decimal.Div`
step computes `amount × rate / rate`), then rounded to the currency's
scale — not the input amount rounded to the currency's scale alone. -/
theorem convert_same_currency (s amt : String) (a : ℚ) (cur : Currency)
    (h3 : amt ≠ "") (hp : newFromString amt = some a) (ha : 0 < a)
    (hc : cryptoCurrencies (normalizeCode s) = some cur) :
    handleExchange ⟨s, s, amt⟩ =
      .ok ⟨normalizeCode s, normalizeCode s,
        roundHalfAway (roundHalfAway a divisionPrecision) cur.decimalPlaces⟩ := by
  have hne := registry_code_ne_empty _ _ hc
  have hrz := registry_rate_ne_zero _ _ hc
  have h := handleExchange_valid ⟨s, s, amt⟩ a cur cur hne hne h3 hp ha hc hc
  rwa [divRound_mul_cancel a cur.rateToUSD divisionPrecision hrz] at h

/-- Witness for C8: `convert(USDT, USDT, "100.0")` through the amended
statement. -/
theorem convert_same_currency_witness :
    handleExchange ⟨"USDT", "USDT", "100.0"⟩ =
      .ok ⟨"USDT", "USDT",
        roundHalfAway (roundHalfAway 100 divisionPrecision) 6⟩ :=
  convert_same_currency "USDT" "100.0" 100 ⟨"USDT", 6, 999/1000⟩
    (by decide)
    (by simp [newFromString, show parseDecParts "100.0" = some (1000, -1) from by decide]
        norm_num)
    (by norm_num) (by rfl)

/-- C8 counterexample: for BEER (18 decimal places) and the positive
18-decimal amount `X = 0.000000000000000001`, `convert(BEER, BEER, X)`
returns `0`, whereas `X` rounded to 18 places is `X ≠ 0`: the intermediate
division rounds at 16 places first. -/
theorem convert_same_currency_counterexample :
    handleExchange ⟨"BEER", "BEER", "0.000000000000000001"⟩ =
      .ok ⟨"BEER", "BEER", 0⟩ ∧
    roundHalfAway ((1 : ℚ)/10^18) 18 = (1 : ℚ)/10^18 ∧
    ((1 : ℚ)/10^18) ≠ 0 := by
  refine ⟨?_, by norm_num [roundHalfAway], by norm_num⟩
  have h : parseDecParts "0.000000000000000001" = some (1, -18) := by decide
  have hB : normalizeCode "BEER" = "BEER" := by decide
  simp [handleExchange, hB, newFromString, h, GetCurrency, cryptoCurrencies]
  norm_num [divRound, roundHalfAway, divisionPrecision, RoundToDecimalPlaces]

/-! ## Claims about the cross-rate calculator -/

/-- Every rate entry produced by the inner loop comes from `calculateRate`
on its own pair, with `from ≠ to`. -/
theorem rowRates_mem (rates : RatesMap) (f : String) (ts : List String)
    (l : List ExchangeRate) (h : rowRates rates f ts = .ok l) :
    ∀ e ∈ l, e.From = f ∧ e.To ∈ ts ∧ f ≠ e.To ∧
      calculateRate rates f e.To = .ok e.Rate := by
  induction ts generalizing l with
  | nil =>
    simp only [rowRates] at h
    cases h
    intro e he
    exact absurd he (List.not_mem_nil e)
  | cons t rest ih =>
    simp only [rowRates] at h
    split at h
    · intro e he
      have := ih l h e he
      exact ⟨this.1, by simp [this.2.1], this.2.2⟩
    · cases hcalc : calculateRate rates f t with
      | error err => rw [hcalc] at h; exact absurd h (by simp)
      | ok r =>
        rw [hcalc] at h
        cases htail : rowRates rates f rest with
        | error err => rw [htail] at h; exact absurd h (by simp)
        | ok tail =>
          rw [htail] at h
          cases h
          intro e he
          rcases List.mem_cons.mp he with he1 | he2
          · subst he1
            exact ⟨rfl, by simp, by assumption, hcalc⟩
          · have := ih tail htail e he2
            exact ⟨this.1, by simp [this.2.1], this.2.2⟩

/-- Every rate entry produced by the double loop comes from
`calculateRate` on its own pair. -/
theorem allRates_mem (rates : RatesMap) (cs fs : List String)
    (l : List ExchangeRate) (h : allRates rates cs fs = .ok l) :
    ∀ e ∈ l, e.From ∈ fs ∧ e.To ∈ cs ∧ e.From ≠ e.To ∧
      calculateRate rates e.From e.To = .ok e.Rate := by
  induction fs generalizing l with
  | nil =>
    simp only [allRates] at h
    cases h
    intro e he
    exact absurd he (List.not_mem_nil e)
  | cons f rest ih =>
    simp only [allRates] at h
    cases hrow : rowRates rates f cs with
    | error err => rw [hrow] at h; exact absurd h (by simp)
    | ok row =>
      rw [hrow] at h
      cases hmore : allRates rates cs rest with
      | error err => rw [hmore] at h; exact absurd h (by simp)
      | ok more =>
        rw [hmore] at h
        cases h
        intro e he
        rcases List.mem_append.mp he with he1 | he2
        · have := rowRates_mem rates f cs row hrow e he1
          exact ⟨by simp [this.1], this.2.1, this.1 ▸ this.2.2.1, this.1 ▸ this.2.2.2⟩
        · have := ih more hmore e he2
          exact ⟨by simp [this.1], this.2.1, this.2.2.1, this.2.2.2⟩

/-- C4 (amended): every rate returned by `getAllRates` for a pair with
non-zero provider rates is `R[to] / R[from]` rounded half away from zero at
16 decimal places (the `Decimal.Div` division precision), not the exact
quotient. -/
theorem crossrate_divround (repo : List String → Except GoErr (RatesMap × String))
    (qs : List String) (rates : RatesMap) (info outInfo : String)
    (result : List ExchangeRate)
    (hrepo : repo (qs.map normalizeCode) = .ok (rates, info))
    (hres : handleGetRates repo qs = .ok (result, outInfo)) :
    ∀ e ∈ result, ∀ fr tr, rates e.From = some fr → rates e.To = some tr →
      0 < fr → 0 < tr →
      e.Rate = roundHalfAway (tr / fr) divisionPrecision := by
  intro e he fr tr hf ht hfpos htpos
  by_cases hlen : qs.length < 2
  · simp [handleGetRates, hlen] at hres
  · simp only [handleGetRates, if_neg hlen, hrepo] at hres
    cases hfind : List.find? (fun c => (rates c).isNone) (qs.map normalizeCode) with
    | some c => rw [hfind] at hres; exact absurd hres (by simp)
    | none =>
      rw [hfind] at hres
      cases hall : allRates rates (qs.map normalizeCode) (qs.map normalizeCode) with
      | error err => rw [hall] at hres; exact absurd hres (by simp)
      | ok res =>
        rw [hall] at hres
        simp only [Except.ok.injEq, Prod.mk.injEq] at hres
        obtain ⟨hres1, hres2⟩ := hres
        subst hres1
        have hmem := allRates_mem rates _ _ res hall e he
        have hcalc := hmem.2.2.2
        simp only [calculateRate, hf, ht] at hcalc
        rw [if_neg (by
          rintro (h0 | h0)
          · exact absurd h0 (ne_of_gt hfpos)
          · exact absurd h0 (ne_of_gt htpos))] at hcalc
        injection hcalc with hrate
        rw [← hrate]
        rfl

/-- Live-rate fixture for the cross-rate scenarios: `USD → 1`, `EUR → 3`. -/
def demoRates : RatesMap := fun c =>
  if c = "USD" then some 1 else if c = "EUR" then some 3 else none

/-- A rates repository that always answers with `demoRates`. -/
def demoRepo : List String → Except GoErr (RatesMap × String) :=
  fun _ => .ok (demoRates, "live")

/-- Witness for C4: the `(EUR, USD)` entry of
`getAllRates({USD, EUR})` over `demoRates`. -/
theorem crossrate_divround_witness :
    (⟨"EUR", "USD", (3333333333333333 : ℚ)/10000000000000000⟩ : ExchangeRate).Rate =
      roundHalfAway ((1 : ℚ) / 3) divisionPrecision :=
  crossrate_divround demoRepo ["USD", "EUR"] demoRates "live" "live"
    [⟨"USD", "EUR", 3⟩, ⟨"EUR", "USD", (3333333333333333 : ℚ)/10000000000000000⟩]
    rfl
    (by have hU : normalizeCode "USD" = "USD" := by decide
        have hE : normalizeCode "EUR" = "EUR" := by decide
        simp [handleGetRates, hU, hE, demoRepo, demoRates, allRates, rowRates, calculateRate]
        norm_num [divRound, roundHalfAway, divisionPrecision])
    ⟨"EUR", "USD", (3333333333333333 : ℚ)/10000000000000000⟩ (by simp)
    3 1 (by simp [demoRates]) (by simp [demoRates]) (by norm_num) (by norm_num)

/-- C4 counterexample: over `demoRates` (both rates strictly positive), the
`(EUR, USD)` rate returned by `getAllRates` is `0.3333333333333333`, not
the exact quotient `1/3`: the code rounds the quotient at 16 places. -/
theorem crossrate_exact_counterexample :
    demoRates "EUR" = some 3 ∧ demoRates "USD" = some 1 ∧
    handleGetRates demoRepo ["USD", "EUR"] =
      .ok ([⟨"USD", "EUR", 3⟩,
            ⟨"EUR", "USD", (3333333333333333 : ℚ)/10000000000000000⟩], "live") ∧
    (3333333333333333 : ℚ)/10000000000000000 ≠ (1 : ℚ) / 3 := by
  refine ⟨by simp [demoRates], by simp [demoRates], ?_, by norm_num⟩
  have hU : normalizeCode "USD" = "USD" := by decide
  have hE : normalizeCode "EUR" = "EUR" := by decide
  simp [handleGetRates, hU, hE, demoRepo, demoRates, allRates, rowRates, calculateRate]
  norm_num [divRound, roundHalfAway, divisionPrecision]

/-- C5 (amended): `calculateRate` fails with the invalid-rate error naming
both codes and both values exactly when one of the two present rates is
zero; success only guarantees both rates are non-zero — a negative rate is
accepted. -/
theorem invalid_rate_zero_only (rates : RatesMap) (f t : String) (fr tr : ℚ)
    (hf : rates f = some fr) (ht : rates t = some tr) :
    ((fr = 0 ∨ tr = 0) →
      calculateRate rates f t = .error (.invalidRate f fr t tr)) ∧
    (∀ r, calculateRate rates f t = .ok r → fr ≠ 0 ∧ tr ≠ 0) := by
  constructor
  · intro h0
    simp only [calculateRate, hf, ht]
    rw [if_pos h0]
  · intro r hok
    simp only [calculateRate, hf, ht] at hok
    by_cases h0 : fr = 0 ∨ tr = 0
    · rw [if_pos h0] at hok
      exact absurd hok (by simp)
    · push_neg at h0
      exact h0

/-- Rates fixture with a zero entry: `USD → 0`, `EUR → 1`. -/
def zeroRates : RatesMap := fun c =>
  if c = "USD" then some 0 else if c = "EUR" then some 1 else none

/-- Witness for C5: a zero `from` rate produces the invalid-rate error
carrying both codes and both values. -/
theorem invalid_rate_zero_only_witness :
    calculateRate zeroRates "USD" "EUR" = .error (.invalidRate "USD" 0 "EUR" 1) :=
  (invalid_rate_zero_only zeroRates "USD" "EUR" 0 1
    (by simp [zeroRates]) (by simp [zeroRates])).1 (Or.inl rfl)

/-- Rates fixture with a negative entry: `USD → 1`, `EUR → -2`. -/
def negRates : RatesMap := fun c =>
  if c = "USD" then some 1 else if c = "EUR" then some (-2) else none

/-- A rates repository that always answers with `negRates`. -/
def negRepo : List String → Except GoErr (RatesMap × String) :=
  fun _ => .ok (negRates, "live")

/-- C5 counterexample: with `EUR`'s provider rate `-2` (negative, hence not
strictly positive), `getAllRates({USD, EUR})` succeeds instead of failing:
the code only rejects rates equal to zero. -/
theorem invalid_rate_counterexample :
    negRates "EUR" = some (-2) ∧ ¬ (0 < (-2 : ℚ)) ∧
    handleGetRates negRepo ["USD", "EUR"] =
      .ok ([⟨"USD", "EUR", -2⟩, ⟨"EUR", "USD", -((1 : ℚ)/2)⟩], "live") := by
  refine ⟨by simp [negRates], by norm_num, ?_⟩
  have hU : normalizeCode "USD" = "USD" := by decide
  have hE : normalizeCode "EUR" = "EUR" := by decide
  simp [handleGetRates, hU, hE, negRepo, negRates, allRates, rowRates, calculateRate]
  norm_num [divRound, roundHalfAway, divisionPrecision]

/-- The inner loop yields no entries when every `to` candidate equals the
`from` currency. -/
theorem rowRates_all_same (rates : RatesMap) (f : String) (ts : List String)
    (h : ∀ t ∈ ts, t = f) : rowRates rates f ts = .ok [] := by
  induction ts with
  | nil => rfl
  | cons t rest ih =>
    have ht : t = f := h t (by simp)
    simp only [rowRates, ht, if_pos rfl]
    exact ih fun x hx => h x (by simp [hx])

/-- The double loop yields no entries when every currency in both lists is
the same single one. -/
theorem allRates_all_same (rates : RatesMap) (c0 : String) (cs fs : List String)
    (hcs : ∀ c ∈ cs, c = c0) (hfs : ∀ c ∈ fs, c = c0) :
    allRates rates cs fs = .ok [] := by
  induction fs with
  | nil => rfl
  | cons f rest ih =>
    have hf : f = c0 := hfs f (by simp)
    have hrow : rowRates rates f cs = .ok [] :=
      rowRates_all_same rates f cs fun t htm => (hcs t htm).trans hf.symm
    simp only [allRates, hrow]
    rw [ih fun x hx => hfs x (by simp [hx])]
    rfl

/-- C10: when every requested code normalizes to the same currency and the
provider's result covers it, `getAllRates` succeeds with an empty list of
exchange rates — every ordered pair has `from = to` and is skipped. -/
theorem getAllRates_same_currency (repo : List String → Except GoErr (RatesMap × String))
    (qs : List String) (rates : RatesMap) (info : String) (c0 : String) (v : ℚ)
    (hlen : 2 ≤ qs.length)
    (hall : ∀ c ∈ qs, normalizeCode c = c0)
    (hrepo : repo (qs.map normalizeCode) = .ok (rates, info))
    (hc : rates c0 = some v) :
    handleGetRates repo qs = .ok ([], info) := by
  have hmem : ∀ c ∈ qs.map normalizeCode, c = c0 := by
    intro c hcm
    rcases List.mem_map.mp hcm with ⟨x, hx, hxc⟩
    exact hxc ▸ hall x hx
  have hfind : List.find? (fun c => (rates c).isNone) (qs.map normalizeCode) = none := by
    rw [List.find?_eq_none]
    intro x hx
    rw [hmem x hx, hc]
    simp
  simp only [handleGetRates, if_neg (by omega : ¬ qs.length < 2), hrepo, hfind]
  rw [allRates_all_same rates c0 _ _ hmem hmem]

/-- Repository fixture answering `USDT → 1` with a mock description. -/
def usdtRates : RatesMap := fun c => if c = "USDT" then some 1 else none

/-- A rates repository that always answers with `usdtRates`. -/
def usdtRepo : List String → Except GoErr (RatesMap × String) :=
  fun _ => .ok (usdtRates, "mock")

/-- Witness for C10: `getAllRates({"usdt", " USDT"})` returns the empty
rate list. -/
theorem getAllRates_same_currency_witness :
    handleGetRates usdtRepo ["usdt", " USDT"] = .ok ([], "mock") :=
  getAllRates_same_currency usdtRepo ["usdt", " USDT"] usdtRates "mock" "USDT" 1
    (by decide) (by decide) rfl (by simp [usdtRates])

/-! ## Claims about the resilient provider's response mapping -/

/-- If some requested non-`USD` currency is missing upstream, the copy loop
fails with the unsupported-by-provider error naming a missing requested
currency. -/
theorem collectRates_missing (upstream : RatesMap) (cs : List String)
    (c : String) (hc : c ∈ cs) (hcu : c ≠ "USD") (hmiss : upstream c = none) :
    ∃ cm, collectRates upstream cs = .error (.unsupportedByProvider cm) ∧
      cm ∈ cs ∧ cm ≠ "USD" ∧ upstream cm = none := by
  induction cs with
  | nil => exact absurd hc (List.not_mem_nil c)
  | cons x rest ih =>
    by_cases hx : x = "USD"
    · have hcr : c ∈ rest := by
        rcases List.mem_cons.mp hc with h1 | h1
        · exact absurd (h1.trans hx) hcu
        · exact h1
      rcases ih hcr with ⟨cm, hcm, hcm2, hcm3, hcm4⟩
      exact ⟨cm, by simp only [collectRates, if_pos hx]; exact hcm,
        by simp [hcm2], hcm3, hcm4⟩
    · cases hup : upstream x with
      | none =>
        exact ⟨x, by simp only [collectRates, if_neg hx, hup],
          by simp, hx, hup⟩
      | some r =>
        have hcr : c ∈ rest := by
          rcases List.mem_cons.mp hc with h1 | h1
          · rw [h1] at hmiss
            rw [hmiss] at hup
            exact absurd hup (by simp)
          · exact h1
        rcases ih hcr with ⟨cm, hcm, hcm2, hcm3, hcm4⟩
        refine ⟨cm, ?_, by simp [hcm2], hcm3, hcm4⟩
        simp only [collectRates, if_neg hx, hup, hcm]

/-- On success the copy loop recorded, for every requested non-`USD`
currency, exactly its upstream rate. -/
theorem collectRates_ok_lookup (upstream : RatesMap) (cs : List String)
    (l : List (String × ℚ)) (h : collectRates upstream cs = .ok l) :
    ∀ c ∈ cs, c ≠ "USD" → ∃ r, upstream c = some r ∧ l.lookup c = some r := by
  induction cs generalizing l with
  | nil => intro c hc; exact absurd hc (List.not_mem_nil c)
  | cons x rest ih =>
    intro c hc hcu
    by_cases hx : x = "USD"
    · simp only [collectRates, if_pos hx] at h
      have hcr : c ∈ rest := by
        rcases List.mem_cons.mp hc with h1 | h1
        · exact absurd (h1.trans hx) hcu
        · exact h1
      exact ih l h c hcr hcu
    · simp only [collectRates, if_neg hx] at h
      cases hup : upstream x with
      | none => rw [hup] at h; exact absurd h (by simp)
      | some r =>
        rw [hup] at h
        cases htail : collectRates upstream rest with
        | error e => rw [htail] at h; exact absurd h (by simp)
        | ok tail =>
          rw [htail] at h
          cases h
          by_cases hcx : c = x
          · subst hcx
            exact ⟨r, hup, by simp [List.lookup]⟩
          · rcases List.mem_cons.mp hc with h1 | h1
            · exact absurd h1 hcx
            · rcases ih tail htail c h1 hcu with ⟨r2, hr2, hr2l⟩
              refine ⟨r2, hr2, ?_⟩
              have hbx : (c == x) = false := beq_eq_false_iff_ne.mpr hcx
              simp only [List.lookup, hbx]
              exact hr2l

/-- C6: with a credential configured, the response mapping synthesizes rate
`1.0` for `USD` when requested; every other requested currency must be
present upstream — any missing one fails the whole call (no partial
mapping) with the unsupported-by-provider error naming a missing requested
currency — and on success each such currency maps to exactly its upstream
rate. -/
theorem fetch_maps_response (currencies : List String) (upstream : RatesMap) :
    (("USD" ∈ currencies) → ∀ m, fetchRatesFromAPI currencies upstream = .ok m →
      m.lookup "USD" = some 1) ∧
    (∀ c ∈ currencies, c ≠ "USD" → upstream c = none →
      ∃ cm, fetchRatesFromAPI currencies upstream =
          .error (.unsupportedByProvider cm) ∧
        cm ∈ currencies ∧ cm ≠ "USD" ∧ upstream cm = none) ∧
    (∀ m, fetchRatesFromAPI currencies upstream = .ok m →
      ∀ c ∈ currencies, c ≠ "USD" →
        ∃ r, upstream c = some r ∧ m.lookup c = some r) := by
  refine ⟨?_, ?_, ?_⟩
  · intro hmem m hok
    simp only [fetchRatesFromAPI] at hok
    cases hcol : collectRates upstream currencies with
    | error e => rw [hcol] at hok; exact absurd hok (by simp)
    | ok rest =>
      rw [hcol] at hok
      simp only [Except.ok.injEq] at hok
      subst hok
      rw [if_pos (by
        rw [List.contains_iff_exists_mem_beq]
        exact ⟨"USD", hmem, by simp⟩)]
      simp [List.lookup]
  · intro c hc hcu hmiss
    rcases collectRates_missing upstream currencies c hc hcu hmiss with
      ⟨cm, hcm, hcm2, hcm3, hcm4⟩
    refine ⟨cm, ?_, hcm2, hcm3, hcm4⟩
    simp only [fetchRatesFromAPI, hcm]
  · intro m hok c hc hcu
    simp only [fetchRatesFromAPI] at hok
    cases hcol : collectRates upstream currencies with
    | error e => rw [hcol] at hok; exact absurd hok (by simp)
    | ok rest =>
      rw [hcol] at hok
      simp only [Except.ok.injEq] at hok
      subst hok
      rcases collectRates_ok_lookup upstream currencies rest hcol c hc hcu with
        ⟨r, hr, hrl⟩
      refine ⟨r, hr, ?_⟩
      by_cases husd : List.contains currencies "USD"
      · rw [if_pos husd]
        have hbu : (c == "USD") = false := beq_eq_false_iff_ne.mpr hcu
        simp only [List.cons_append, List.nil_append, List.lookup, hbu]
        exact hrl
      · rw [if_neg husd]
        simpa using hrl

/-- Upstream fixture for the C6 witness: only `EUR → 3`. -/
def eurUpstream : RatesMap := fun c => if c = "EUR" then some 3 else none

/-- Witness for C6: requesting `{USD, EUR}` against `eurUpstream` succeeds
and maps `USD` to the synthesized rate `1`. -/
theorem fetch_maps_response_witness :
    (([("USD", (1 : ℚ)), ("EUR", 3)] : List (String × ℚ)).lookup "USD" = some 1) :=
  (fetch_maps_response ["USD", "EUR"] eurUpstream).1 (by simp)
    [("USD", (1 : ℚ)), ("EUR", 3)]
    (by simp [fetchRatesFromAPI, collectRates, eurUpstream])

/-! ## Claims about the circuit breaker -/

/-- C2: from a Closed breaker with a clean failure counter, three
consecutive failures inside the counting interval open the breaker, and
every call arriving during the 30-second cool-down is rejected without any
network attempt, surfacing as the distinct "service protection active"
error of `GetRates`. -/
theorem breaker_opens_and_fails_fast (b : Breaker) (t1 t2 t3 : ℕ)
    (hstate : b.state = .closed) (hcf : b.consecutiveFailures = 0)
    (h1 : t1 < b.intervalStart + countingInterval)
    (h2 : t2 < b.intervalStart + countingInterval)
    (h3 : t3 < b.intervalStart + countingInterval) :
    let b3 := (breakerCall (breakerCall (breakerCall b t1 false).1 t2 false).1 t3 false).1
    b3.state = .opened ∧ b3.openedAt = t3 ∧
    ∀ t o fetch, t < t3 + coolDown →
      breakerCall b3 t o = (b3, .rejectedOpen) ∧
      getRatesResilient b3 t fetch = (b3, .error .serviceProtectionActive) := by
  obtain ⟨st, cf, is, oa⟩ := b
  simp only at hstate hcf h1 h2 h3
  subst hstate hcf
  have e1 : breakerCall ⟨.closed, 0, is, oa⟩ t1 false =
      (⟨.closed, 1, is, oa⟩, .attempted false) := by
    simp [breakerCall, Nat.not_le.mpr h1, failureThreshold]
  have e2 : breakerCall ⟨.closed, 1, is, oa⟩ t2 false =
      (⟨.closed, 2, is, oa⟩, .attempted false) := by
    simp [breakerCall, Nat.not_le.mpr h2, failureThreshold]
  have e3 : breakerCall ⟨.closed, 2, is, oa⟩ t3 false =
      (⟨.opened, 3, is, t3⟩, .attempted false) := by
    simp [breakerCall, Nat.not_le.mpr h3, failureThreshold]
  intro b3
  have hb3 : b3 = ⟨.opened, 3, is, t3⟩ := by
    show (breakerCall (breakerCall (breakerCall ⟨.closed, 0, is, oa⟩ t1 false).1
      t2 false).1 t3 false).1 = _
    rw [e1, e2, e3]
  refine ⟨by rw [hb3], by rw [hb3], fun t o fetch ht => ?_⟩
  have hrej : breakerCall b3 t o = (b3, .rejectedOpen) := by
    rw [hb3]
    simp [breakerCall, ht]
  refine ⟨hrej, ?_⟩
  have hrej2 : breakerCall b3 t fetch.toBool = (b3, .rejectedOpen) := by
    rw [hb3]
    simp [breakerCall, ht]
  simp [getRatesResilient, hrej2]

/-- Witness for C2: a fresh breaker, failures at 1 s, 2 s, 3 s, and a call
at 10 s that is rejected without touching the network. -/
theorem breaker_opens_and_fails_fast_witness :
    breakerCall
        (breakerCall (breakerCall (breakerCall ⟨.closed, 0, 0, 0⟩ 1 false).1
          2 false).1 3 false).1 10 true =
      ((breakerCall (breakerCall (breakerCall ⟨.closed, 0, 0, 0⟩ 1 false).1
          2 false).1 3 false).1, .rejectedOpen) ∧
    getRatesResilient
        (breakerCall (breakerCall (breakerCall ⟨.closed, 0, 0, 0⟩ 1 false).1
          2 false).1 3 false).1 10 (.ok demoRates) =
      ((breakerCall (breakerCall (breakerCall ⟨.closed, 0, 0, 0⟩ 1 false).1
          2 false).1 3 false).1, .error .serviceProtectionActive) :=
  (breaker_opens_and_fails_fast ⟨.closed, 0, 0, 0⟩ 1 2 3 rfl rfl
    (by decide) (by decide) (by decide)).2.2 10 true (.ok demoRates) (by decide)

/-- C3: once the cool-down has elapsed on an Open breaker, the next call is
admitted to the network as the single trial, and the breaker commits
immediately: Closed if the trial succeeds (one success suffices), Open
again if it fails. -/
theorem breaker_single_trial_commits (b : Breaker) (now : ℕ) (o : Bool)
    (hstate : b.state = .opened) (hcool : b.openedAt + coolDown ≤ now) :
    (breakerCall b now o).2 = .attempted o ∧
    (breakerCall b now o).1.state = (if o then .closed else .opened) ∧
    (o = true → (breakerCall b now o).1.state = .closed) := by
  obtain ⟨st, cf, is, oa⟩ := b
  simp only at hstate hcool
  subst hstate
  cases o <;> simp [breakerCall, Nat.not_lt.mpr hcool]

/-- Witness for C3: an Open breaker that opened at 5 s takes a successful
trial at 35 s and closes. -/
theorem breaker_single_trial_commits_witness :
    (breakerCall ⟨.opened, 3, 0, 5⟩ 35 true).2 = .attempted true ∧
    (breakerCall ⟨.opened, 3, 0, 5⟩ 35 true).1.state =
      (if true then .closed else .opened) ∧
    (true = true → (breakerCall ⟨.opened, 3, 0, 5⟩ 35 true).1.state = .closed) :=
  breaker_single_trial_commits ⟨.opened, 3, 0, 5⟩ 35 true rfl (by decide)

end CurrencyApi
